import Mathlib

/-!
# Verification of the comment-harvester retrieval-and-ranking pipeline

This file is a shallow embedding, in Lean 4, of the core search pipeline of
the repository (main implementation: `src/src/lib/api.ts`; the alternate
rewrite `src/unnamed/part_003` is embedded where a claim cites it).

Modelling conventions, fixed once for the whole file:

* JS strings are modelled as `List Char`.  `String.prototype.toLowerCase`
  is `Char.toLower` mapped over the list (the inputs concerned are ASCII).
* JS numbers used for scores in `api.ts` are always of the form `k / 100`
  with `k : ℤ` (`matchCount + upvotes / 100` or `upvotes / 100`), so a
  score is represented by its numerator `k = 100 · score`.  This integer
  encoding is order-isomorphic to the ideal rational value, so sorting,
  comparisons and increment comparisons are preserved exactly.
* The network is external: the comments accumulated by the fetch phase
  (lines 228–313 of `api.ts`) are a parameter `collected` of the model, and
  the wall-clock is a parameter `now`.
* A regex built by `new RegExp(escapeRegex(term), 'gi')` matches the
  literal `term` case-insensitively; `body.match(re).length` is the number
  of leftmost non-overlapping occurrences, modelled by `countOcc` below,
  and `re.test(s)` is a substring test, modelled by `jsIncludes`.
  (`test` with a `g` flag is stateful in JS via `lastIndex`; the model
  treats it as stateless.  No theorem below about `filterType = 'all'`
  depends on a positive `test` result, so the idealisation is harmless.)
* `Array.prototype.sort` with the comparator
  `(a, b) => (b.score || 0) - (a.score || 0)` is a stable descending sort
  by score; any stable sort realises it, and we use a stable insertion
  sort so that the definition reduces in the kernel.
* Thrown exceptions are modelled with `Except`: `searchCommentsBody` is
  the body of the `try` block of `searchComments` (lines 193–353), and
  `searchComments` itself composes it with the `catch` handler
  (lines 354–361).
-/

/-- `[...].slice(0, limit)` for a JS `limit` that may be negative or exceed
the length: a negative end counts from the end of the array
(`end' = max(len + end, 0)`), a large end is clipped to the length. -/
def jsSliceTo {α : Type} (l : List α) (e : Int) : List α :=
  l.take (if e < 0 then (l.length + e).toNat else e.toNat)

/-- JS `toLowerCase` on a string modelled as a char list. -/
def lowerChars (s : List Char) : List Char := s.map Char.toLower

/-- JS `String.prototype.trim`. -/
def trimChars (s : List Char) : List Char :=
  ((s.dropWhile Char.isWhitespace).reverse.dropWhile Char.isWhitespace).reverse

/-- One step of `split(/\s+/)`: split at every whitespace character.  This
produces empty pieces inside a whitespace run where the JS regex collapses
the run, but the pipeline filters out empty terms right after splitting
(`.filter(term => term.length > 0)`, `api.ts` line 205), after which the
two readings agree. -/
def splitOnWsAux : List Char → List Char → List (List Char)
  | [], acc => [acc.reverse]
  | c :: rest, acc =>
    if c.isWhitespace then acc.reverse :: splitOnWsAux rest []
    else splitOnWsAux rest (c :: acc)

/-- Query parsing of `api.ts` line 205:
`query.toLowerCase().trim().split(/\s+/).filter(term => term.length > 0)`. -/
def parseSearchTerms (query : List Char) : List (List Char) :=
  (splitOnWsAux (trimChars (lowerChars query)) []).filter (fun t => t.length > 0)

/-- Number of leftmost non-overlapping occurrences of `pat` in the text,
i.e. `text.match(new RegExp(escapeRegex(pat), 'g')).length` (0 when there is
no match).  The `skip` counter carries the remaining characters of a match
being stepped over, keeping the recursion structural. -/
def countOccAux (pat : List Char) : List Char → Nat → Nat
  | [], _ => 0
  | c :: rest, skip =>
    match skip with
    | k + 1 => countOccAux pat rest k
    | 0 =>
      if pat.isPrefixOf (c :: rest) then 1 + countOccAux pat rest (pat.length - 1)
      else countOccAux pat rest 0

/-- Occurrence count of a (nonempty) pattern; the search terms fed to it are
nonempty by construction (`parseSearchTerms` filters empty terms). -/
def countOcc (pat text : List Char) : Nat :=
  if pat.isEmpty then 0 else countOccAux pat text 0

/-- JS `String.prototype.includes` / `RegExp.prototype.test` for a literal
pattern: the pattern occurs somewhere in the text. -/
def jsIncludes (pat text : List Char) : Bool :=
  text.tails.any (fun suf => pat.isPrefixOf suf)

/-- The `RedditComment` record of `api.ts` lines 5–14.  `timestamp` keeps
the upstream epoch value; the ISO formatting applied by the source is an
injective presentation no claim depends on.  `score` holds `100 ·` the JS
score (see the header comment). -/
structure RedditComment where
  id : List Char
  author : List Char
  body : List Char
  subreddit : List Char
  upvotes : Int
  timestamp : Int
  matchScore : Option Nat := none
  score : Option Int := none
deriving DecidableEq

/-- `comment.score || 0` used by the sort comparator. -/
def scoreOr0 (c : RedditComment) : Int := c.score.getD 0

/-- Stable insertion placing `c` before the first strictly smaller score:
together with `sortByScoreDesc` this realises the unique stable descending
order produced by `filteredComments.sort((a, b) => (b.score || 0) - (a.score || 0))`
(`api.ts` line 447). -/
def insertByScoreDesc (c : RedditComment) : List RedditComment → List RedditComment
  | [] => [c]
  | d :: rest =>
    if scoreOr0 d < scoreOr0 c then c :: d :: rest
    else d :: insertByScoreDesc c rest

/-- Stable sort by descending score (`api.ts` line 447). -/
def sortByScoreDesc : List RedditComment → List RedditComment
  | [] => []
  | c :: rest => insertByScoreDesc c (sortByScoreDesc rest)

/-- Deduplication by id of `api.ts` lines 450–452:
`filteredComments.filter((comment, index, self) => index === self.findIndex(c => c.id === comment.id))`,
i.e. keep an element iff no earlier element carries the same id.  `seen`
accumulates the ids already kept. -/
def dedupByIdAux : List RedditComment → List (List Char) → List RedditComment
  | [], _ => []
  | c :: rest, seen =>
    if c.id ∈ seen then dedupByIdAux rest seen
    else c :: dedupByIdAux rest (c.id :: seen)

/-- Remove duplicates based on comment id, keeping the first occurrence. -/
def dedupById (l : List RedditComment) : List RedditComment := dedupByIdAux l []

/-- Score written by the keyword / all branches:
`comment.score = matchCount + (comment.upvotes / 100)` (`api.ts`
lines 391 and 437), in the `×100` integer encoding. -/
def commentScore (matchCount : Nat) (upvotes : Int) : Int :=
  100 * (matchCount : Int) + upvotes

/-- Score written by the branches that rank purely by upvotes:
`comment.score = comment.upvotes / 100`, in the `×100` integer encoding. -/
def upvoteOnlyScore (upvotes : Int) : Int := upvotes

/-- Total regex match count of all search terms against the body
(`api.ts` lines 384–388): terms are already lower-cased, the `i` flag makes
the body comparison case-insensitive. -/
def keywordMatchCount (terms : List (List Char)) (body : List Char) : Nat :=
  (terms.map (fun t => countOcc t (lowerChars body))).sum

/-- The `case 'keyword'` filter of `api.ts` lines 382–396: keep a comment
iff some term matches its body, recording `matchScore` and `score`. -/
def keywordFilter (terms : List (List Char)) (comments : List RedditComment) :
    List RedditComment :=
  comments.filterMap (fun c =>
    let m := keywordMatchCount terms c.body
    if 0 < m then
      some { c with matchScore := some m, score := some (commentScore m c.upvotes) }
    else none)

/-- Match count of the `case 'all'` branch (`api.ts` lines 427–433): body
occurrences plus one per term testing positive against the lower-cased
author and subreddit. -/
def allMatchCount (terms : List (List Char)) (c : RedditComment) : Nat :=
  (terms.map (fun t =>
    countOcc t (lowerChars c.body) +
      (if jsIncludes t (lowerChars c.author) then 1 else 0) +
      (if jsIncludes t (lowerChars c.subreddit) then 1 else 0))).sum

/-- The `case 'all' / default` filter of `api.ts` lines 418–442. -/
def allFilter (terms : List (List Char)) (comments : List RedditComment) :
    List RedditComment :=
  comments.filterMap (fun c =>
    if terms.isEmpty then some c
    else
      let m := allMatchCount terms c
      if 0 < m then
        some { c with matchScore := some m, score := some (commentScore m c.upvotes) }
      else none)

/-- `processCommentsWithSearchTerms` of `api.ts` lines 365–455: branch on
filter type, then stable-sort by descending score, then deduplicate by id.
The `regexes` parameter of the source is determined by `searchTerms`
(line 206) and is therefore not a separate argument here. -/
def processCommentsWithSearchTerms (comments : List RedditComment)
    (searchTerms : List (List Char)) (filterType : List Char) (query : List Char) :
    List RedditComment :=
  let filtered :=
    if searchTerms.isEmpty ∧ filterType = "all".toList then
      comments.map (fun c => { c with score := some (upvoteOnlyScore c.upvotes) })
    else if filterType = "keyword".toList then
      keywordFilter searchTerms comments
    else if filterType = "subreddit".toList then
      (comments.filter (fun c => lowerChars c.subreddit = lowerChars query)).map
        (fun c => { c with score := some (upvoteOnlyScore c.upvotes) })
    else if filterType = "author".toList then
      (comments.filter (fun c => jsIncludes (lowerChars query) (lowerChars c.author))).map
        (fun c => { c with score := some (upvoteOnlyScore c.upvotes) })
    else
      allFilter searchTerms comments
  dedupById (sortByScoreDesc filtered)

/-- A stored cache value (`api.ts` line 27): insertion timestamp plus the
full scored result list. -/
structure CacheEntry where
  timestamp : Int
  results : List RedditComment
deriving DecidableEq

/-- The module-level `searchCache` map, as an association list whose `set`
replaces any previous binding of the key. -/
abbrev CacheMap : Type := List (List Char × CacheEntry)

/-- `Map.prototype.get`. -/
def mapGet (m : CacheMap) (k : List Char) : Option CacheEntry :=
  (m.find? (fun p => p.1 = k)).map (fun p => p.2)

/-- `Map.prototype.set` (replacing semantics). -/
def mapSet (m : CacheMap) (k : List Char) (v : CacheEntry) : CacheMap :=
  (k, v) :: m.filter (fun p => ¬ p.1 = k)

/-- Default `CACHE_DURATION` of `api.ts` line 28 (five minutes in
milliseconds; the environment override keeps the same role). -/
def CACHE_DURATION : Int := 5 * 60 * 1000

/-- `getCacheKey` of `api.ts` lines 36–38. -/
def getCacheKey (query filterType : List Char) (page : Int) : List Char :=
  lowerChars query ++ "_".toList ++ filterType ++ "_".toList ++ (toString page).toList

/-- `getFromCache` of `api.ts` lines 41–48: a stored entry is returned only
while its age is strictly below `CACHE_DURATION`; otherwise the lookup is a
miss even though the entry is still in the map (lazy expiry). -/
def getFromCache (cache : CacheMap) (now : Int) (query filterType : List Char)
    (page : Int) : Option (List RedditComment) :=
  match mapGet cache (getCacheKey query filterType page) with
  | some cached => if now - cached.timestamp < CACHE_DURATION then some cached.results else none
  | none => none

/-- `saveToCache` of `api.ts` lines 51–54. -/
def saveToCache (cache : CacheMap) (now : Int) (query filterType : List Char)
    (page : Int) (results : List RedditComment) : CacheMap :=
  mapSet cache (getCacheKey query filterType page) ⟨now, results⟩

/-- The fallback dataset `mockComments` of `api.ts` lines 179–183.  The
`new Date().toISOString()` timestamps are the call instant; the model pins
them to 0, which no claim observes. -/
def mockComments : List RedditComment :=
  [ { id := "mock1".toList, author := "tech_enthusiast".toList,
      body := "Modern programming languages like Rust and Go are gaining popularity.".toList,
      subreddit := "programming".toList, upvotes := 128, timestamp := 0 },
    { id := "mock2".toList, author := "science_lover".toList,
      body := "The James Webb Space Telescope has revolutionized our understanding of distant galaxies.".toList,
      subreddit := "science".toList, upvotes := 243, timestamp := 0 },
    { id := "mock3".toList, author := "design_thinker".toList,
      body := "Apple prioritizes simplicity and user experience over feature bloat.".toList,
      subreddit := "technology".toList, upvotes := 87, timestamp := 0 } ]

/-- The `query` argument as it may arrive at runtime: a string, or any
non-string value, on which `query.toLowerCase()` throws a `TypeError`. -/
inductive JSQuery where
  | str (s : List Char)
  | nonString
deriving DecidableEq

/-- Result of the `catch` handler of `api.ts` lines 354–361: slice the mock
dataset to the (unclamped) limit, then write `score = upvotes / 100` on each
entry. -/
def mockCatchResult (limit : Int) : List RedditComment :=
  (jsSliceTo mockComments limit).map
    (fun c => { c with score := some (upvoteOnlyScore c.upvotes) })

/-- Value resolved by `processResults` (`api.ts` lines 322–342): when the
collection phase accumulated nothing, the mock dataset is pushed through the
same scoring and filtering as live data; either way the processed list is
truncated to the (clamped) limit.  The primary timer (line 317) always fires
before the safety timer (line 345) and `processResults` always resolves, so
this is the value the promise settles with on every non-cached path. -/
def processResultsValue (collected : List RedditComment)
    (searchTerms : List (List Char)) (filterType : List Char) (query : List Char)
    (limit : Int) : List RedditComment :=
  if collected.isEmpty then
    jsSliceTo (processCommentsWithSearchTerms mockComments searchTerms filterType query) limit
  else
    jsSliceTo (processCommentsWithSearchTerms collected searchTerms filterType query) limit

/-- The body of the `try` block of `searchComments` (`api.ts`
lines 193–353), with thrown exceptions surfaced in `Except`:

* line 194 `getFromCache(query, ...)` calls `query.toLowerCase()` inside
  `getCacheKey`, which throws a `TypeError` when `query` is not a string —
  this is the first statement of the `try` block, so the throw happens
  inside it;
* lines 194–198: a fresh cache hit is returned sliced to the *raw* limit —
  the clamp of line 204 has not run yet on this path;
* lines 200–202: the explicit `typeof query !== 'string'` throw — on this
  model it is unreachable, because a non-string query already threw in the
  cache lookup above;
* line 204: `limit = Math.max(1, Math.min(limit, 100))`;
* lines 205–313: query parsing and the awaited collection phase, whose
  accumulated comments are the `collected` parameter;
* lines 315–353: the promise resolving with `processResultsValue`. -/
def searchCommentsBody (cache : CacheMap) (now : Int) (query : JSQuery)
    (filterType : List Char) (limit : Int) (page : Int)
    (collected : List RedditComment) : Except (List Char) (List RedditComment) :=
  match query with
  | .nonString => .error "TypeError: query.toLowerCase is not a function".toList
  | .str q =>
    match getFromCache cache now q filterType page with
    | some cachedResults => .ok (jsSliceTo cachedResults limit)
    | none =>
      let lim := max 1 (min limit 100)
      let searchTerms := parseSearchTerms q
      .ok (processResultsValue collected searchTerms filterType q lim)

/-- `searchComments` of `api.ts` lines 186–362: the `try` body with the
`catch` handler converting any thrown error into the mock fallback sliced to
the (raw) limit.  The returned promise always resolves with this list and
never rejects. -/
def searchComments (cache : CacheMap) (now : Int) (query : JSQuery)
    (filterType : List Char) (limit : Int) (page : Int)
    (collected : List RedditComment) : List RedditComment :=
  match searchCommentsBody cache now query filterType limit page collected with
  | .ok results => results
  | .error _ => mockCatchResult limit

/-- The cache state after a non-cached, non-throwing search: `processResults`
stores the full processed list before truncation (`api.ts` lines 327
and 336). -/
def searchCommentsCacheAfter (cache : CacheMap) (now : Int) (query : List Char)
    (filterType : List Char) (page : Int) (collected : List RedditComment) : CacheMap :=
  let searchTerms := parseSearchTerms query
  if collected.isEmpty then
    saveToCache cache now query filterType page
      (processCommentsWithSearchTerms mockComments searchTerms filterType query)
  else
    saveToCache cache now query filterType page
      (processCommentsWithSearchTerms collected searchTerms filterType query)

/-- Every list stored in the cache has pairwise distinct comment ids.  The
cache starts empty and (`api.ts` lines 327, 336) only outputs of
`processCommentsWithSearchTerms` — which end in `dedupById` — are ever
stored, so this invariant holds of every reachable cache state; it is
re-established below (`cacheWF_after_search`). -/
def CacheWF (cache : CacheMap) : Prop :=
  ∀ p ∈ cache, p.2.results.Pairwise (fun a b => a.id ≠ b.id)

/-! ## Timing model of `searchComments` (claim C4)

The collection phase (`api.ts` lines 232–313) performs its upstream
requests and inter-request delays as a chain of sequential `await`s that
completes **before** the promise holding the two timers is even created
(line 315).  Each awaited step has some duration (a delayed source runs to
its per-call axios timeout — 15000 ms at line 103 — before its error is
caught); `collectDelays` lists those durations.  Once the promise exists,
the primary timer (line 317) fires at `timeout` ms and `processResults`
resolves the promise then; the safety timer (line 345) would fire at
`timeout + 5000` ms but a promise can only settle once, so it never changes
the outcome.  Hence the call resolves exactly `timeout` ms after the
collection phase ends. -/

/-- Total duration of the sequentially awaited collection phase. -/
def collectionDuration (collectDelays : List Nat) : Nat := collectDelays.sum

/-- Milliseconds from the call to `searchComments` until its promise
resolves: the awaited collection phase, then the primary timer. -/
def searchResolveTime (collectDelays : List Nat) (timeout : Nat) : Nat :=
  collectionDuration collectDelays + timeout

/-- The "safety-timeout bound" of the claim: primary collection timeout
plus the fixed 5000 ms margin of `api.ts` line 352. -/
def safetyBound (timeout : Nat) : Nat := timeout + 5000

/-! ## The comment-tree extractor (`extractComments`, `api.ts` lines 147–176) -/

mutual
/-- A node of the upstream thread listing: a `kind` tag (`"t1"` for a
comment, `"more"` for a placeholder, ...) and an optional `data` payload. -/
inductive RNode : Type where
  | mk (kind : List Char) (data : Option RData) : RNode
/-- The payload of a node.  `author`/`body` are `none` when the upstream
field is absent or empty (both falsy in JS, normalized by
`item.data.author || '[deleted]'` and `item.data.body || ''`); `ups`
likewise (`item.data.ups || 0`). -/
inductive RData : Type where
  | mk (id : List Char) (author : Option (List Char)) (body : Option (List Char))
       (ups : Option Int) (createdUtc : Int) (replies : RField) : RData
/-- The `replies` field: falsy (absent or `""`), truthy but without the
`.data.children` chain (malformed), or a well-formed nested forest. -/
inductive RField : Type where
  | absent : RField
  | malformed : RField
  | forest (children : List RNode) : RField
end

/-- Normalization of one included node into a `RedditComment`
(`api.ts` lines 153–160). -/
def normalizeNode (id : List Char) (author : Option (List Char))
    (body : Option (List Char)) (ups : Option Int) (createdUtc : Int)
    (subreddit : List Char) : RedditComment :=
  { id := id, author := author.getD "[deleted]".toList, body := body.getD [],
    subreddit := subreddit, upvotes := ups.getD 0, timestamp := createdUtc }

/-- The inclusion test of `api.ts` line 162:
`comment.body && comment.body !== '[deleted]' && comment.body !== '[removed]'`.
The author is *not* consulted. -/
def bodyIncluded (body : List Char) : Bool :=
  ¬ body.isEmpty ∧ body ≠ "[deleted]".toList ∧ body ≠ "[removed]".toList

mutual
/-- `processComments` of `api.ts` lines 150–172 over a list of sibling
nodes: depth-first, pre-order. -/
def extractForest : List RNode → List Char → List RedditComment
  | [], _ => []
  | n :: rest, subreddit => extractNode n subreddit ++ extractForest rest subreddit
/-- One loop iteration: append the node itself when it is a `t1` comment
with an included body (`item.kind === 't1' && item.data` plus the body test,
lines 152/162), then recurse into its replies regardless of whether the node
itself was included. -/
def extractNode : RNode → List Char → List RedditComment
  | .mk _ none, _ => []
  | .mk kind (some (.mk id author body ups createdUtc replies)), subreddit =>
    (if kind = "t1".toList ∧ bodyIncluded (body.getD []) then
      [normalizeNode id author body ups createdUtc subreddit]
    else []) ++ extractReplies replies subreddit
/-- The guard of line 168
(`item.data && item.data.replies && item.data.replies.data && item.data.replies.data.children`):
only a well-formed reply forest is recursed into; absent or malformed
branches are a no-op. -/
def extractReplies : RField → List Char → List RedditComment
  | .absent, _ => []
  | .malformed, _ => []
  | .forest children, subreddit => extractForest children subreddit
end

/-- `extractComments` of `api.ts` lines 147–176. -/
def extractComments (commentData : List RNode) (subreddit : List Char) :
    List RedditComment :=
  extractForest commentData subreddit

/-! ## The alternate scoring engine of `src/unnamed/part_003`

`calculateCommentScore` (part_003 lines 47–109) adds, among other terms,
`Math.log(comment.upvotes + 1) * SCORING_WEIGHTS.UPVOTES_WEIGHT` with
`UPVOTES_WEIGHT = 0.3` (line 103 and line 11).  `Math.log` is modelled by
`Real.log` on the idealized reals. -/

/-- The upvote contribution of `calculateCommentScore` in part_003:
`Math.log(upvotes + 1) * 0.3`. -/
noncomputable def logUpvoteTerm (upvotes : ℕ) : ℝ :=
  Real.log (upvotes + 1) * 0.3

/-- The upvote contribution of the main pipeline's score
(`api.ts` lines 391/437: `matchCount + upvotes / 100`), read off from
`commentScore` at a fixed match count — in the `×100` integer encoding of
scores this is `commentScore m u - 100 * m = u`. -/
def apiUpvoteTerm (upvotes : Int) : Int := commentScore 0 upvotes

/-! ## Helper lemmas -/

theorem jsSliceTo_sublist {α : Type} (l : List α) (e : Int) :
    (jsSliceTo l e).Sublist l := by
  unfold jsSliceTo
  exact List.take_sublist _ _

theorem mem_of_mem_jsSliceTo {α : Type} {l : List α} {e : Int} {x : α}
    (h : x ∈ jsSliceTo l e) : x ∈ l :=
  (jsSliceTo_sublist l e).mem h

theorem length_jsSliceTo_le {α : Type} (l : List α) {e : Int} (he : 0 ≤ e) :
    (jsSliceTo l e).length ≤ e.toNat := by
  unfold jsSliceTo
  rw [if_neg (by omega)]
  exact List.length_take_le _ _

theorem countOccAux_pos {pat : List Char} :
    ∀ {text : List Char} {skip : Nat}, 0 < countOccAux pat text skip →
      ∃ l r, text = l ++ pat ++ r := by
  intro text
  induction text with
  | nil => intro skip h; simp [countOccAux] at h
  | cons c rest ih =>
    intro skip h
    match skip with
    | k + 1 =>
      obtain ⟨l, r, hlr⟩ := ih (by simpa [countOccAux] using h)
      exact ⟨c :: l, r, by simp [hlr]⟩
    | 0 =>
      by_cases hp : pat.isPrefixOf (c :: rest)
      · obtain ⟨r, hr⟩ := List.isPrefixOf_iff_prefix.mp hp
        exact ⟨[], r, by simp [hr.symm]⟩
      · obtain ⟨l, r, hlr⟩ := ih (by simpa [countOccAux, hp] using h)
        exact ⟨c :: l, r, by simp [hlr]⟩

theorem countOcc_pos {pat text : List Char} (h : 0 < countOcc pat text) :
    ∃ l r, text = l ++ pat ++ r := by
  unfold countOcc at h
  by_cases hp : pat.isEmpty
  · simp [hp] at h
  · exact countOccAux_pos (by simpa [hp] using h)

theorem exists_pos_of_sum_pos {α : Type} {f : α → Nat} :
    ∀ {l : List α}, 0 < (l.map f).sum → ∃ x ∈ l, 0 < f x := by
  intro l
  induction l with
  | nil => intro h; simp at h
  | cons a rest ih =>
    intro h
    by_cases ha : 0 < f a
    · exact ⟨a, List.mem_cons_self a rest, ha⟩
    · have : 0 < (rest.map f).sum := by
        simp only [List.map_cons, List.sum_cons] at h
        omega
      obtain ⟨x, hx, hfx⟩ := ih this
      exact ⟨x, List.mem_cons_of_mem _ hx, hfx⟩

theorem mem_insertByScoreDesc {c x : RedditComment} :
    ∀ {l : List RedditComment}, x ∈ insertByScoreDesc c l ↔ x = c ∨ x ∈ l := by
  intro l
  induction l with
  | nil => simp [insertByScoreDesc]
  | cons d rest ih =>
    by_cases h : scoreOr0 d < scoreOr0 c
    · simp [insertByScoreDesc, h]
    · simp [insertByScoreDesc, h, ih]
      tauto

theorem mem_sortByScoreDesc {x : RedditComment} :
    ∀ {l : List RedditComment}, x ∈ sortByScoreDesc l ↔ x ∈ l := by
  intro l
  induction l with
  | nil => simp [sortByScoreDesc]
  | cons c rest ih =>
    simp [sortByScoreDesc, mem_insertByScoreDesc, ih]

/-- Every element kept by the dedup pass comes from the input, carries an id
outside `seen`, and is the *first* element of the input with its id. -/
theorem dedupByIdAux_spec {x : RedditComment} :
    ∀ {l : List RedditComment} {seen : List (List Char)},
      x ∈ dedupByIdAux l seen →
        x ∈ l ∧ x.id ∉ seen ∧ l.find? (fun d => d.id == x.id) = some x := by
  intro l
  induction l with
  | nil => intro seen h; simp [dedupByIdAux] at h
  | cons c rest ih =>
    intro seen h
    by_cases hc : c.id ∈ seen
    · rw [dedupByIdAux, if_pos hc] at h
      obtain ⟨hmem, hseen, hfind⟩ := ih h
      have hne : ¬ (c.id == x.id) = true := by
        intro hb
        exact hseen (beq_iff_eq.mp hb ▸ hc)
      refine ⟨List.mem_cons_of_mem _ hmem, hseen, ?_⟩
      have hstep : List.find? (fun d => d.id == x.id) (c :: rest) =
          List.find? (fun d => d.id == x.id) rest := List.find?_cons_of_neg rest hne
      rw [hstep]
      exact hfind
    · rw [dedupByIdAux, if_neg hc] at h
      rcases List.mem_cons.mp h with hx | hx
      · subst hx
        have hstep : List.find? (fun d => d.id == x.id) (x :: rest) = some x :=
          List.find?_cons_of_pos rest (by simp)
        exact ⟨List.mem_cons_self _ _, hc, hstep⟩
      · obtain ⟨hmem, hseen, hfind⟩ := ih hx
        have hxc : x.id ≠ c.id := by
          intro he
          exact hseen (by simp [he])
        have hxseen : x.id ∉ seen := fun hs => hseen (List.mem_cons_of_mem _ hs)
        refine ⟨List.mem_cons_of_mem _ hmem, hxseen, ?_⟩
        have hne2 : ¬ (c.id == x.id) = true := by
          intro hb
          exact hxc (beq_iff_eq.mp hb).symm
        have hstep : List.find? (fun d => d.id == x.id) (c :: rest) =
            List.find? (fun d => d.id == x.id) rest := List.find?_cons_of_neg rest hne2
        rw [hstep]
        exact hfind

theorem dedupByIdAux_pairwise :
    ∀ (l : List RedditComment) (seen : List (List Char)),
      (dedupByIdAux l seen).Pairwise (fun a b => a.id ≠ b.id) := by
  intro l
  induction l with
  | nil => intro seen; simp [dedupByIdAux]
  | cons c rest ih =>
    intro seen
    by_cases hc : c.id ∈ seen
    · rw [dedupByIdAux, if_pos hc]; exact ih seen
    · rw [dedupByIdAux, if_neg hc]
      refine List.Pairwise.cons ?_ (ih (c.id :: seen))
      intro b hb
      have := (dedupByIdAux_spec hb).2.1
      intro he
      exact this (by simp [← he])

/-- Every id of the input survives deduplication. -/
theorem dedupByIdAux_covers {x : RedditComment} :
    ∀ {l : List RedditComment} {seen : List (List Char)}, x ∈ l →
      x.id ∈ seen ∨ ∃ c ∈ dedupByIdAux l seen, c.id = x.id := by
  intro l
  induction l with
  | nil => intro seen h; simp at h
  | cons c rest ih =>
    intro seen h
    by_cases hc : c.id ∈ seen
    · rw [dedupByIdAux, if_pos hc]
      rcases List.mem_cons.mp h with hx | hx
      · exact Or.inl (hx ▸ hc)
      · exact ih hx
    · rw [dedupByIdAux, if_neg hc]
      rcases List.mem_cons.mp h with hx | hx
      · exact Or.inr ⟨c, List.mem_cons_self _ _, (hx ▸ rfl)⟩
      · rcases @ih (c.id :: seen) hx with hs | ⟨d, hd, hde⟩
        · rcases List.mem_cons.mp hs with h1 | h2
          · exact Or.inr ⟨c, List.mem_cons_self _ _, h1.symm⟩
          · exact Or.inl h2
        · exact Or.inr ⟨d, List.mem_cons_of_mem _ hd, hde⟩

theorem dedupById_pairwise (l : List RedditComment) :
    (dedupById l).Pairwise (fun a b => a.id ≠ b.id) :=
  dedupByIdAux_pairwise l []

theorem mem_of_mem_dedupById {x : RedditComment} {l : List RedditComment}
    (h : x ∈ dedupById l) : x ∈ l :=
  (dedupByIdAux_spec h).1

theorem dedupById_keeps_first {x : RedditComment} {l : List RedditComment}
    (h : x ∈ dedupById l) : l.find? (fun d => d.id == x.id) = some x :=
  (dedupByIdAux_spec h).2.2

theorem dedupById_covers {x : RedditComment} {l : List RedditComment} (h : x ∈ l) :
    ∃ c ∈ dedupById l, c.id = x.id := by
  rcases @dedupByIdAux_covers _ _ [] h with hs | hc
  · simp at hs
  · exact hc

theorem processCommentsWithSearchTerms_pairwise (comments : List RedditComment)
    (searchTerms : List (List Char)) (filterType : List Char) (query : List Char) :
    (processCommentsWithSearchTerms comments searchTerms filterType query).Pairwise
      (fun a b => a.id ≠ b.id) := by
  unfold processCommentsWithSearchTerms
  exact dedupById_pairwise _

theorem mockComments_pairwise :
    mockComments.Pairwise (fun a b => a.id ≠ b.id) := by decide

theorem cacheWF_mapSet {m : CacheMap} {k : List Char} {t : Int}
    {l : List RedditComment} (hm : CacheWF m)
    (hl : l.Pairwise (fun a b => a.id ≠ b.id)) : CacheWF (mapSet m k ⟨t, l⟩) := by
  intro p hp
  rcases List.mem_cons.mp hp with hp | hp
  · subst hp; exact hl
  · exact hm p (List.mem_of_mem_filter hp)

/-- The cache invariant `CacheWF` is preserved by a search: only outputs of
`processCommentsWithSearchTerms` (which end in `dedupById`) are stored. -/
theorem cacheWF_after_search (cache : CacheMap) (now : Int)
    (query filterType : List Char) (page : Int) (collected : List RedditComment)
    (h : CacheWF cache) :
    CacheWF (searchCommentsCacheAfter cache now query filterType page collected) := by
  unfold searchCommentsCacheAfter saveToCache
  by_cases hc : collected.isEmpty
  · rw [if_pos hc]
    exact cacheWF_mapSet h (processCommentsWithSearchTerms_pairwise _ _ _ _)
  · rw [if_neg hc]
    exact cacheWF_mapSet h (processCommentsWithSearchTerms_pairwise _ _ _ _)

/-- A value served from the cache under the `CacheWF` invariant has pairwise
distinct ids. -/
theorem getFromCache_wf {cache : CacheMap} {now : Int} {q ft : List Char}
    {page : Int} {v : List RedditComment} (h : CacheWF cache)
    (hg : getFromCache cache now q ft page = some v) :
    v.Pairwise (fun a b => a.id ≠ b.id) := by
  unfold getFromCache mapGet at hg
  cases hfind : List.find? (fun p => p.1 = getCacheKey q ft page) cache with
  | none => rw [hfind] at hg; simp at hg
  | some p =>
    rw [hfind] at hg
    simp only [Option.map_some'] at hg
    by_cases httl : now - p.2.timestamp < CACHE_DURATION
    · rw [if_pos httl] at hg
      cases hg
      exact h p (List.mem_of_find?_eq_some hfind)
    · rw [if_neg httl] at hg
      simp at hg

/-- Concrete comment used by counterexamples and witnesses below. -/
def sampleComment (ident : List Char) (ups : Int) : RedditComment :=
  { id := ident, author := "alice".toList, body := "great point about rust".toList,
    subreddit := "programming".toList, upvotes := ups, timestamp := 0 }

/-! ## The claims -/

/-- C8: for every cache key (query, filter mode, page) and stored list `v`,
a `get` whose age is strictly below the TTL returns `v` unchanged (no
rescoring: the stored list itself is handed back), and a `get` after the TTL
elapsed behaves as a miss even though the entry is still physically in the
map. -/
theorem cache_roundtrip_and_lazy_expiry
    (cache : CacheMap) (q ft : List Char) (page tPut now1 now2 : Int)
    (v : List RedditComment) (entry : CacheEntry)
    (h1 : now1 - tPut < CACHE_DURATION)
    (h2 : mapGet cache (getCacheKey q ft page) = some entry)
    (h3 : CACHE_DURATION ≤ now2 - entry.timestamp) :
    getFromCache (saveToCache cache tPut q ft page v) now1 q ft page = some v
    ∧ getFromCache cache now2 q ft page = none := by
  constructor
  · unfold getFromCache saveToCache mapSet mapGet
    have hstep : List.find? (fun p => p.1 = getCacheKey q ft page)
        ((getCacheKey q ft page, (⟨tPut, v⟩ : CacheEntry)) ::
          cache.filter (fun p => ¬ p.1 = getCacheKey q ft page)) =
        some (getCacheKey q ft page, (⟨tPut, v⟩ : CacheEntry)) :=
      List.find?_cons_of_pos _ (by simp)
    rw [hstep]
    simp [h1]
  · unfold getFromCache
    rw [h2]
    show (if now2 - entry.timestamp < CACHE_DURATION then some entry.results else none) = none
    rw [if_neg (by omega)]

/-- C8 witness: a put followed by a get 1 ms later returns the stored list;
the same entry read `CACHE_DURATION` ms after its timestamp is a miss. -/
theorem cache_roundtrip_and_lazy_expiry_witness :
    getFromCache (saveToCache [] 0 "rust".toList "all".toList 1
        [sampleComment "a".toList 3]) 1 "rust".toList "all".toList 1 =
      some [sampleComment "a".toList 3]
    ∧ getFromCache [(getCacheKey "rust".toList "all".toList 1,
        (⟨0, [sampleComment "a".toList 3]⟩ : CacheEntry))] CACHE_DURATION
        "rust".toList "all".toList 1 = none :=
  cache_roundtrip_and_lazy_expiry
    [(getCacheKey "rust".toList "all".toList 1,
      (⟨0, [sampleComment "a".toList 3]⟩ : CacheEntry))]
    "rust".toList "all".toList 1 0 1 CACHE_DURATION
    [sampleComment "a".toList 3] ⟨0, [sampleComment "a".toList 3]⟩
    (by decide) (by decide) (by decide)

/-- C2: every list returned by `searchComments` has pairwise distinct
comment ids, and the dedup step keeps, for each id, exactly the first
occurrence in its input: a kept element is what `findIndex` locates first,
and the deduplicated list itself has no repeated id.  (The hypothesis
`CacheWF` is the invariant that cached entries are themselves deduplicated
outputs, re-established by `cacheWF_after_search` above.) -/
theorem searchComments_dedup_by_id
    (cache : CacheMap) (now : Int) (query : JSQuery) (ft : List Char)
    (limit : Int) (page : Int) (collected : List RedditComment)
    (l : List RedditComment) (d : RedditComment)
    (hwf : CacheWF cache) (hd : d ∈ dedupById l) :
    (searchComments cache now query ft limit page collected).Pairwise
      (fun a b => a.id ≠ b.id)
    ∧ l.find? (fun e => e.id == d.id) = some d
    ∧ (dedupById l).Pairwise (fun a b => a.id ≠ b.id) := by
  refine ⟨?_, dedupById_keeps_first hd, dedupById_pairwise l⟩
  cases query with
  | nonString =>
    show (mockCatchResult limit).Pairwise _
    unfold mockCatchResult
    rw [List.pairwise_map]
    exact List.Pairwise.sublist (jsSliceTo_sublist _ _) mockComments_pairwise
  | str q =>
    unfold searchComments searchCommentsBody
    cases hg : getFromCache cache now q ft page with
    | some cachedResults =>
      simp only [hg]
      exact List.Pairwise.sublist (jsSliceTo_sublist _ _) (getFromCache_wf hwf hg)
    | none =>
      simp only [hg]
      unfold processResultsValue
      by_cases hc : collected.isEmpty
      · rw [if_pos hc]
        exact List.Pairwise.sublist (jsSliceTo_sublist _ _)
          (processCommentsWithSearchTerms_pairwise _ _ _ _)
      · rw [if_neg hc]
        exact List.Pairwise.sublist (jsSliceTo_sublist _ _)
          (processCommentsWithSearchTerms_pairwise _ _ _ _)

/-- C2 witness: a concrete search result has distinct ids and the dedup of a
list with a repeated id keeps its first occurrence. -/
theorem searchComments_dedup_by_id_witness :
    (searchComments [] 0 (JSQuery.str "rust".toList) "all".toList 5 1 []).Pairwise
      (fun a b => a.id ≠ b.id)
    ∧ [sampleComment "x".toList 1, sampleComment "y".toList 2,
        sampleComment "x".toList 3].find?
        (fun e => e.id == (sampleComment "x".toList 1).id) =
      some (sampleComment "x".toList 1)
    ∧ (dedupById [sampleComment "x".toList 1, sampleComment "y".toList 2,
        sampleComment "x".toList 3]).Pairwise (fun a b => a.id ≠ b.id) :=
  searchComments_dedup_by_id [] 0 (JSQuery.str "rust".toList) "all".toList 5 1 []
    [sampleComment "x".toList 1, sampleComment "y".toList 2,
      sampleComment "x".toList 3] (sampleComment "x".toList 1)
    (fun p hp => absurd hp (List.not_mem_nil p)) (by decide)

/-- C1 counterexample: with an empty collection (all live retrieval yielded
zero comments), an empty cache and the query `"xyzzy"` that matches no
fallback comment, `searchComments` returns the *empty* list — the claim
that the result is never empty is false. -/
theorem searchComments_total_failure_empty_result :
    searchComments [] 0 (JSQuery.str "xyzzy".toList) "all".toList 20 1 [] = [] := by
  decide

/-- C1 (amended): when every live retrieval attempt yields zero comments
(and the cache misses), `searchComments` resolves — the `try` body returns
`Except.ok`, no error reaches the caller — with the Fallback Provider's
dataset pushed through the *same* scoring and filtering as live data and
truncated to the clamped limit; the list can however be empty when no
fallback comment survives the query filter. -/
theorem searchComments_total_failure_fallback
    (cache : CacheMap) (now : Int) (q ft : List Char) (limit : Int) (page : Int)
    (hmiss : getFromCache cache now q ft page = none) :
    searchCommentsBody cache now (JSQuery.str q) ft limit page [] =
      Except.ok (jsSliceTo
        (processCommentsWithSearchTerms mockComments (parseSearchTerms q) ft q)
        (max 1 (min limit 100))) := by
  unfold searchCommentsBody
  simp only [hmiss]
  unfold processResultsValue
  rw [if_pos (by decide)]

/-- C1 witness: the query `"rust"` against a total failure yields exactly
the scored and filtered fallback dataset. -/
theorem searchComments_total_failure_fallback_witness :
    searchCommentsBody [] 0 (JSQuery.str "rust".toList) "all".toList 20 1 [] =
      Except.ok (jsSliceTo
        (processCommentsWithSearchTerms mockComments
          (parseSearchTerms "rust".toList) "all".toList "rust".toList)
        (max 1 (min 20 100))) :=
  searchComments_total_failure_fallback [] 0 "rust".toList "all".toList 20 1
    (by decide)

/-- Cache state used by the C3 counterexample: a stored list of two
comments under the key of query `"q"`, filter `"all"`, page 1. -/
def cacheWithTwo : CacheMap :=
  saveToCache [] 0 "q".toList "all".toList 1
    [sampleComment "a".toList 1, sampleComment "b".toList 2]

/-- C3 counterexample: on a cache hit the requested limit is used *before*
the clamp of `api.ts` line 204 runs, so `limit = 0` returns the empty list
where clamping to `[1, 100]` would return exactly one entry; and a cached
list longer than 100 entries is returned whole when a larger limit is
requested, exceeding the claimed 100-entry bound. -/
theorem searchComments_limit_clamp_bypassed :
    searchComments cacheWithTwo 0 (JSQuery.str "q".toList) "all".toList 0 1 [] = []
    ∧ jsSliceTo [sampleComment "a".toList 1, sampleComment "b".toList 2]
        (max 1 (min 0 100)) = [sampleComment "a".toList 1]
    ∧ (searchComments
        (saveToCache [] 0 "q".toList "all".toList 1
          ((List.range 101).map (fun i => sampleComment (toString i).toList 0)))
        0 (JSQuery.str "q".toList) "all".toList 500 1 []).length = 101 := by
  decide

/-- C3 (amended): on the fresh-computation path (cache miss) the effective
limit is clamped to `[1, 100]` and the final truncation uses the clamped
count, so such results never exceed 100 entries and a requested limit below
1 behaves as 1; the cache-hit path (and the catch path) slice with the raw
requested limit instead. -/
theorem searchComments_limit_clamped_on_miss
    (cache : CacheMap) (now : Int) (q ft : List Char) (limit : Int) (page : Int)
    (collected : List RedditComment)
    (hmiss : getFromCache cache now q ft page = none) :
    (searchComments cache now (JSQuery.str q) ft limit page collected).length ≤ 100
    ∧ searchComments cache now (JSQuery.str q) ft limit page collected =
        searchComments cache now (JSQuery.str q) ft (max 1 (min limit 100)) page
          collected := by
  have hbody : searchComments cache now (JSQuery.str q) ft limit page collected =
      processResultsValue collected (parseSearchTerms q) ft q (max 1 (min limit 100)) := by
    unfold searchComments searchCommentsBody
    simp only [hmiss]
  have hclamp : max 1 (min (max 1 (min limit 100)) 100) = max 1 (min limit 100) := by
    omega
  constructor
  · rw [hbody]
    unfold processResultsValue
    have hlen : ∀ (l : List RedditComment),
        (jsSliceTo l (max 1 (min limit 100))).length ≤ 100 := by
      intro l
      have h1 : (jsSliceTo l (max 1 (min limit 100))).length ≤
          (max 1 (min limit 100)).toNat := length_jsSliceTo_le l (by omega)
      omega
    by_cases hc : collected.isEmpty
    · rw [if_pos hc]; exact hlen _
    · rw [if_neg hc]; exact hlen _
  · rw [hbody]
    have hbody2 : searchComments cache now (JSQuery.str q) ft
        (max 1 (min limit 100)) page collected =
        processResultsValue collected (parseSearchTerms q) ft q
          (max 1 (min (max 1 (min limit 100)) 100)) := by
      unfold searchComments searchCommentsBody
      simp only [hmiss]
    rw [hbody2, hclamp]

/-- C3 witness: a fresh search with requested limit 0 behaves as limit 1
and stays within the 100-entry bound. -/
theorem searchComments_limit_clamped_on_miss_witness :
    (searchComments [] 0 (JSQuery.str "rust".toList) "all".toList 0 1
      [sampleComment "a".toList 1]).length ≤ 100
    ∧ searchComments [] 0 (JSQuery.str "rust".toList) "all".toList 0 1
        [sampleComment "a".toList 1] =
      searchComments [] 0 (JSQuery.str "rust".toList) "all".toList
        (max 1 (min 0 100)) 1 [sampleComment "a".toList 1] :=
  searchComments_limit_clamped_on_miss [] 0 "rust".toList "all".toList 0 1
    [sampleComment "a".toList 1] (by decide)

/-- Every member of a `processCommentsWithSearchTerms` output under the
`'keyword'` filter carries some term literally in its lower-cased body. -/
theorem processCWST_keyword_sound (comments : List RedditComment)
    (terms : List (List Char)) (query : List Char) (c : RedditComment)
    (hmem0 : c ∈ processCommentsWithSearchTerms comments terms "keyword".toList query) :
    ∃ t ∈ terms, ∃ l r, lowerChars c.body = l ++ t ++ r := by
  unfold processCommentsWithSearchTerms at hmem0
  rw [if_neg (by
        intro hand
        exact absurd hand.2 (by decide)),
      if_pos rfl] at hmem0
  have hsortmem : c ∈ sortByScoreDesc (keywordFilter terms comments) :=
    mem_of_mem_dedupById hmem0
  have hfiltmem : c ∈ keywordFilter terms comments :=
    mem_sortByScoreDesc.mp hsortmem
  unfold keywordFilter at hfiltmem
  obtain ⟨c0, _, hf⟩ := List.mem_filterMap.mp hfiltmem
  by_cases hm : 0 < keywordMatchCount terms c0.body
  · rw [if_pos hm] at hf
    obtain ⟨t, ht, htpos⟩ := exists_pos_of_sum_pos hm
    obtain ⟨l, r, hlr⟩ := countOcc_pos htpos
    refine ⟨t, ht, l, r, ?_⟩
    have hcbody : c.body = c0.body := by
      cases hf
      rfl
    rw [hcbody]
    exact hlr
  · rw [if_neg hm] at hf
    cases hf

theorem digitChar_ne_underscore (n : Nat) : Nat.digitChar n ≠ '_' := by
  by_cases h : n < 16
  · interval_cases n <;> decide
  · have hstar : Nat.digitChar n = '*' := by
      unfold Nat.digitChar
      repeat rw [if_neg (by omega)]
    rw [hstar]
    decide

theorem toDigitsCore_ne_underscore :
    ∀ (fuel n : Nat) (acc : List Char), '_' ∉ acc →
      '_' ∉ Nat.toDigitsCore 10 fuel n acc := by
  intro fuel
  induction fuel with
  | zero =>
    intro n acc hacc
    simpa [Nat.toDigitsCore] using hacc
  | succ fuel ih =>
    intro n acc hacc
    have hcons : '_' ∉ (Nat.digitChar (n % 10) :: acc) := by
      intro hmem
      rcases List.mem_cons.mp hmem with h1 | h2
      · exact digitChar_ne_underscore _ h1.symm
      · exact hacc h2
    rw [Nat.toDigitsCore]
    split
    · exact hcons
    · exact ih _ _ hcons

theorem nat_repr_ne_underscore (n : Nat) : '_' ∉ (Nat.repr n).toList := by
  have h : (Nat.repr n).toList = Nat.toDigits 10 n := rfl
  rw [h]
  unfold Nat.toDigits
  exact toDigitsCore_ne_underscore _ _ _ (by simp)

/-- `toString` of an integer page number yields only digits and a possible
leading minus sign — never an underscore. -/
theorem int_toString_ne_underscore (n : Int) : '_' ∉ (toString n).toList := by
  cases n with
  | ofNat m => exact nat_repr_ne_underscore m
  | negSucc m =>
    have h : (toString (Int.negSucc m)).toList = '-' :: (Nat.repr (m + 1)).toList := rfl
    rw [h]
    intro hmem
    rcases List.mem_cons.mp hmem with h1 | h2
    · exact absurd h1 (by decide)
    · exact nat_repr_ne_underscore (m + 1) h2

/-- Splitting at an underscore separator is unambiguous when the part before
it is underscore-free. -/
theorem underscore_sep_inj :
    ∀ (x1 x2 r1 r2 : List Char), '_' ∉ x1 → '_' ∉ x2 →
      x1 ++ '_' :: r1 = x2 ++ '_' :: r2 → x1 = x2 ∧ r1 = r2 := by
  intro x1
  induction x1 with
  | nil =>
    intro x2 r1 r2 _ h2 h
    cases x2 with
    | nil =>
      simp only [List.nil_append] at h
      exact ⟨rfl, (List.cons.injEq _ _ _ _ ▸ h).2⟩
    | cons c xs =>
      simp only [List.nil_append, List.cons_append] at h
      injection h with hc _
      exact absurd (hc ▸ List.mem_cons_self c xs) h2
  | cons c xs ih =>
    intro x2 r1 r2 h1 h2 h
    cases x2 with
    | nil =>
      simp only [List.cons_append, List.nil_append] at h
      injection h with hc _
      exact absurd (hc.symm ▸ List.mem_cons_self c xs) h1
    | cons c2 xs2 =>
      simp only [List.cons_append] at h
      injection h with hc ht
      subst hc
      have hx1 : '_' ∉ xs := fun hm => h1 (List.mem_cons_of_mem _ hm)
      have hx2 : '_' ∉ xs2 := fun hm => h2 (List.mem_cons_of_mem _ hm)
      obtain ⟨he, hr⟩ := ih xs2 r1 r2 hx1 hx2 ht
      exact ⟨by rw [he], hr⟩

/-- The cache keys of `api.ts` line 37 are unambiguous for underscore-free
filter types: reading a key from the right, the page digits and the filter
type are separated by underscores that cannot occur inside them, so two
equal keys agree on the filter type and on the lower-cased query.  (A filter
string containing an underscore could alias another key — such values never
arise from the UI's four modes, `api.ts` lines 642–646.) -/
theorem getCacheKey_inj (q q0 ft ft0 : List Char) (page page0 : Int)
    (hft : '_' ∉ ft) (hft0 : '_' ∉ ft0)
    (h : getCacheKey q ft page = getCacheKey q0 ft0 page0) :
    ft = ft0 ∧ lowerChars q = lowerChars q0 := by
  have hu : ("_".toList : List Char) = ['_'] := rfl
  have h' := congrArg List.reverse h
  simp only [getCacheKey, hu, List.reverse_append, List.reverse_cons,
    List.reverse_nil, List.nil_append, List.append_eq, List.append_assoc,
    List.singleton_append, List.cons_append] at h'
  have hd1 : '_' ∉ ((toString page).toList).reverse := by
    rw [List.mem_reverse]
    exact int_toString_ne_underscore page
  have hd2 : '_' ∉ ((toString page0).toList).reverse := by
    rw [List.mem_reverse]
    exact int_toString_ne_underscore page0
  obtain ⟨_, h2⟩ := underscore_sep_inj _ _ _ _ hd1 hd2 h'
  have hf1 : '_' ∉ ft.reverse := by rw [List.mem_reverse]; exact hft
  have hf2 : '_' ∉ ft0.reverse := by rw [List.mem_reverse]; exact hft0
  obtain ⟨hfe, hqe⟩ := underscore_sep_inj _ _ _ _ hf1 hf2 h2
  exact ⟨List.reverse_inj.mp hfe, List.reverse_inj.mp hqe⟩

theorem parseSearchTerms_congr {q q0 : List Char}
    (h : lowerChars q = lowerChars q0) : parseSearchTerms q = parseSearchTerms q0 := by
  unfold parseSearchTerms
  rw [h]

/-- Invariant tying cached keyword entries to their key's query: every list
stored under a key that reads as (query `q`, filter `'keyword'`, some page)
consists of comments whose bodies contain a parsed term of `q`.  It holds of
the empty initial cache and is re-established by every store
(`cacheKeywordSound_after_search` below), mirroring `CacheWF`. -/
def CacheKeywordSound (cache : CacheMap) : Prop :=
  ∀ p ∈ cache, ∀ (q : List Char) (page : Int),
    p.1 = getCacheKey q "keyword".toList page →
    ∀ c ∈ p.2.results, ∃ t ∈ parseSearchTerms q, ∃ l r, lowerChars c.body = l ++ t ++ r

/-- `CacheKeywordSound` is preserved by the store path of `searchComments`
(`api.ts` lines 327/336) for any underscore-free filter type — in
particular for all four modes the UI issues.  A store under `'keyword'`
lands on a key whose only keyword reading has the same lower-cased query
(`getCacheKey_inj`), and its stored list is a `'keyword'`-filtered output;
a store under any other underscore-free filter type cannot produce a
keyword-readable key at all. -/
theorem cacheKeywordSound_after_search (cache : CacheMap) (now : Int)
    (q0 ft0 : List Char) (page0 : Int) (collected : List RedditComment)
    (hft0 : '_' ∉ ft0) (hinv : CacheKeywordSound cache) :
    CacheKeywordSound (searchCommentsCacheAfter cache now q0 ft0 page0 collected) := by
  intro p hp q page hkey c hcres
  have hp' : p = (getCacheKey q0 ft0 page0,
        (⟨now, processCommentsWithSearchTerms
          (if collected.isEmpty then mockComments else collected)
          (parseSearchTerms q0) ft0 q0⟩ : CacheEntry))
      ∨ p ∈ cache.filter (fun pr => ¬ pr.1 = getCacheKey q0 ft0 page0) := by
    unfold searchCommentsCacheAfter saveToCache mapSet at hp
    by_cases hcol : collected.isEmpty
    · rw [if_pos hcol] at hp
      simpa [hcol] using List.mem_cons.mp hp
    · rw [if_neg hcol] at hp
      simpa [hcol] using List.mem_cons.mp hp
  rcases hp' with rfl | hmem
  · obtain ⟨hfte, hqe⟩ :=
      getCacheKey_inj q0 q ft0 "keyword".toList page0 page hft0 (by decide) hkey
    subst hfte
    obtain ⟨t, ht, l, r, hlr⟩ := processCWST_keyword_sound _ _ _ c hcres
    rw [parseSearchTerms_congr hqe] at ht
    exact ⟨t, ht, l, r, hlr⟩
  · exact hinv p (List.mem_of_mem_filter hmem) q page hkey c hcres

/-- C5: every comment returned by `searchComments` under
`filterMode = 'keyword'` contains some parsed query term literally in its
body (case-insensitively): the lower-cased body decomposes around the term.
This covers the live path, the fallback path (which runs the same filter)
and the cache-hit path, the latter through the `CacheKeywordSound`
reachability invariant, which holds of the empty initial cache and is
re-established by every store (`cacheKeywordSound_after_search`). -/
theorem keyword_filter_soundness
    (cache : CacheMap) (now : Int) (q : List Char) (limit : Int) (page : Int)
    (collected : List RedditComment) (c : RedditComment)
    (hinv : CacheKeywordSound cache)
    (hc : c ∈ searchComments cache now (JSQuery.str q) "keyword".toList limit page
        collected) :
    ∃ t ∈ parseSearchTerms q, ∃ l r, lowerChars c.body = l ++ t ++ r := by
  unfold searchComments searchCommentsBody at hc
  cases hg : getFromCache cache now q "keyword".toList page with
  | some v =>
    simp only [hg] at hc
    have hcv : c ∈ v := mem_of_mem_jsSliceTo hc
    unfold getFromCache mapGet at hg
    cases hfind : List.find? (fun p => p.1 = getCacheKey q "keyword".toList page)
        cache with
    | none =>
      rw [hfind] at hg
      simp at hg
    | some p =>
      rw [hfind] at hg
      simp only [Option.map_some'] at hg
      by_cases httl : now - p.2.timestamp < CACHE_DURATION
      · rw [if_pos httl] at hg
        cases hg
        have hps0 := List.find?_some hfind
        have hpkey : p.1 = getCacheKey q "keyword".toList page := by
          simpa using hps0
        exact hinv p (List.mem_of_find?_eq_some hfind) q page hpkey c hcv
      · rw [if_neg httl] at hg
        simp at hg
  | none =>
    simp only [hg] at hc
    unfold processResultsValue at hc
    have hmem : c ∈ processCommentsWithSearchTerms
        (if collected.isEmpty then mockComments else collected)
        (parseSearchTerms q) "keyword".toList q := by
      by_cases hcol : collected.isEmpty
      · rw [if_pos hcol] at hc ⊢
        exact mem_of_mem_jsSliceTo hc
      · rw [if_neg hcol] at hc ⊢
        exact mem_of_mem_jsSliceTo hc
    exact processCWST_keyword_sound _ _ _ c hmem

/-- C5 witness: for the query `"rust"` the single returned fallback comment
indeed contains the term in its body. -/
theorem keyword_filter_soundness_witness :
    ∃ t ∈ parseSearchTerms "rust".toList, ∃ l r,
      lowerChars ({ mockComments.headD (sampleComment [] 0) with
        matchScore := some 1,
        score := some (commentScore 1 128) } : RedditComment).body = l ++ t ++ r :=
  keyword_filter_soundness [] 0 "rust".toList 5 1 [] _
    (fun p hp => absurd hp (List.not_mem_nil p)) (by decide)

/-- C7 counterexample: `api.ts` line 205 filters only empty tokens
(`term.length > 0`), so the single-character query `"a"` parses to the
length-1 term `"a"`, and that term is used for matching — the keyword
filter retains a comment on its strength alone. -/
theorem parse_keeps_single_char_terms :
    parseSearchTerms "a".toList = ["a".toList]
    ∧ ("a".toList).length = 1
    ∧ keywordFilter (parseSearchTerms "a".toList) [sampleComment "x".toList 0] ≠ [] := by
  decide

/-- C7 (amended): query parsing lower-cases, trims, splits on whitespace
and drops exactly the empty tokens: a token survives iff it is non-empty,
so single-character terms are kept and used for matching (the 2-character
minimum appears only in the part_003 variant of the pipeline, not in
`api.ts`). -/
theorem parseSearchTerms_keeps_iff (q t : List Char) :
    t ∈ parseSearchTerms q ↔
      (t ∈ splitOnWsAux (trimChars (lowerChars q)) [] ∧ 1 ≤ t.length) := by
  unfold parseSearchTerms
  rw [List.mem_filter]
  constructor
  · intro ⟨h1, h2⟩
    exact ⟨h1, by simpa using h2⟩
  · intro ⟨h1, h2⟩
    exact ⟨h1, by simpa using h2⟩

/-- C6 counterexample: the score actually written by the pipeline's filters
is `matchCount + upvotes / 100` (`api.ts` lines 391/437) — linear in
upvotes, so consecutive per-upvote increments are *equal*, not strictly
decreasing (here in the `×100` integer encoding: each extra upvote adds
exactly `1`, i.e. `1/100` of a score point). -/
theorem upvote_contribution_linear_not_log :
    keywordFilter ["rust".toList] [sampleComment "k".toList 0] =
      [({ sampleComment "k".toList 0 with
          matchScore := some 1,
          score := some (commentScore 1 0) } : RedditComment)]
    ∧ commentScore 1 1 - commentScore 1 0 = commentScore 1 2 - commentScore 1 1
    ∧ ¬ (commentScore 1 2 - commentScore 1 1 < commentScore 1 1 - commentScore 1 0) := by
  decide

/-- C6 (amended): in the main pipeline the upvote contribution is linear —
each additional upvote raises the score by the constant `1/100` (here `1`
in the `×100` encoding).  The `log(1 + upvotes) * 0.3` contribution with
strictly diminishing increments exists only in the alternate
implementation's `calculateCommentScore` (part_003 line 103). -/
theorem upvote_contribution_shapes (u : ℕ) :
    apiUpvoteTerm ((u : Int) + 1) - apiUpvoteTerm (u : Int) = 1
    ∧ logUpvoteTerm (u + 2) - logUpvoteTerm (u + 1) <
        logUpvoteTerm (u + 1) - logUpvoteTerm u := by
  constructor
  · simp [apiUpvoteTerm, commentScore]
  · unfold logUpvoteTerm
    have key : Real.log (((u : ℝ) + 3) * ((u : ℝ) + 1)) <
        Real.log (((u : ℝ) + 2) * ((u : ℝ) + 2)) := by
      apply Real.log_lt_log (by positivity)
      nlinarith
    rw [Real.log_mul (by positivity) (by positivity),
        Real.log_mul (by positivity) (by positivity)] at key
    push_cast
    have e2 : ((u : ℝ) + 1 + 1) = (u : ℝ) + 2 := by ring
    have e3 : ((u : ℝ) + 2 + 1) = (u : ℝ) + 3 := by ring
    rw [e2, e3]
    linarith

/-- C4 counterexample: with the primary timeout set to 0 and a single
upstream request delayed to its 15000 ms per-call axios timeout, the call
resolves 15000 ms after it started — far beyond the claimed safety bound of
`0 + 5000` ms, because the collection phase is awaited in full before the
timers are even created. -/
theorem resolve_time_exceeds_safety_bound :
    searchResolveTime [15000] 0 = 15000
    ∧ ¬ (searchResolveTime [15000] 0 ≤ safetyBound 0) := by
  decide

/-- C4 (amended): the two timers of `api.ts` lines 317/345 bound only the
*post-collection* stage: the promise resolves exactly `timeout` ms after the
awaited collection phase ends — within the safety bound measured from the
end of collection — while the total latency is `collectionDuration + timeout`,
which is unbounded when every source is arbitrarily delayed. -/
theorem resolve_time_decomposition (delays : List Nat) (timeout : Nat) :
    searchResolveTime delays timeout = collectionDuration delays + timeout
    ∧ searchResolveTime delays timeout - collectionDuration delays ≤
        safetyBound timeout := by
  constructor
  · rfl
  · simp only [searchResolveTime, collectionDuration, safetyBound]
    omega

/-- A `t1` node authored by the moderation bot. -/
def botNode : RNode :=
  RNode.mk "t1".toList (some (RData.mk "c1".toList (some "AutoModerator".toList)
    (some "interesting take".toList) (some 5) 0 RField.absent))

/-- A `t1` node whose author field is absent (normalized to `'[deleted]'`)
but whose body is present. -/
def deletedAuthorNode : RNode :=
  RNode.mk "t1".toList (some (RData.mk "c2".toList none
    (some "still here".toList) none 0 RField.absent))

/-- C9 counterexample: `extractComments` (`api.ts` lines 147–176) filters
only on the *body* — a comment authored by the moderation bot
`AutoModerator`, and one whose author is the `'[deleted]'` sentinel, are
both extracted, contradicting the claimed author exclusion. -/
theorem extractComments_keeps_bot_and_deleted_authors :
    (extractComments [botNode, deletedAuthorNode] "programming".toList).map
      (fun c => c.author) = ["AutoModerator".toList, "[deleted]".toList] := by
  decide

/-- Every record the extractor produces passed the body test of `api.ts`
line 162 (strong induction on the size of the forest, which the nested
recursion of the traversal decreases). -/
theorem extract_body_sanitized :
    ∀ (k : Nat) (forest : List RNode) (sub : List Char) (c : RedditComment),
      sizeOf forest ≤ k → c ∈ extractForest forest sub →
      bodyIncluded c.body = true := by
  intro k
  induction k with
  | zero =>
    intro forest sub c hsz hc
    cases forest with
    | nil => simp [extractForest] at hc
    | cons n rest =>
      simp only [List.cons.sizeOf_spec] at hsz
      omega
  | succ k ih =>
    intro forest sub c hsz hc
    cases forest with
    | nil => simp [extractForest] at hc
    | cons n rest =>
      simp only [extractForest] at hc
      rcases List.mem_append.mp hc with hn | hrest
      · cases n with
        | mk kind data =>
          cases data with
          | none => simp [extractNode] at hn
          | some d =>
            cases d with
            | mk ident author body ups ts replies =>
              simp only [extractNode] at hn
              rcases List.mem_append.mp hn with hown | hrep
              · by_cases hg : kind = "t1".toList ∧ bodyIncluded (body.getD []) = true
                · rw [if_pos hg] at hown
                  rcases List.mem_singleton.mp hown with rfl
                  exact hg.2
                · rw [if_neg hg] at hown
                  simp at hown
              · cases replies with
                | absent => simp [extractReplies] at hrep
                | malformed => simp [extractReplies] at hrep
                | forest children =>
                  simp only [extractReplies] at hrep
                  refine ih children sub c ?_ hrep
                  simp at hsz
                  omega
      · refine ih rest sub c ?_ hrest
        simp at hsz
        omega

/-- C9 (amended): every record produced by the extractor from a nested
thread response has a non-empty body that is neither the deleted nor the
removed sentinel — but its author is *not* filtered (a moderation bot or
deleted-sentinel author is kept, see the counterexample).  Nested replies
are recursed into even when the node itself is excluded (body absent or a
sentinel), and a non-comment node with a malformed reply branch contributes
nothing, without error. -/
theorem extractComments_sanitizes_bodies_and_recurses
    (forest : List RNode) (sub : List Char) (c : RedditComment)
    (kind ident : List Char) (author : Option (List Char)) (ups : Option Int)
    (ts : Int) (children : List RNode) (sub2 : List Char)
    (hc : c ∈ extractComments forest sub) :
    (¬ c.body.isEmpty ∧ c.body ≠ "[deleted]".toList ∧ c.body ≠ "[removed]".toList)
    ∧ extractNode (RNode.mk kind (some (RData.mk ident author none ups ts
        (RField.forest children)))) sub2 = extractForest children sub2
    ∧ extractNode (RNode.mk kind (some (RData.mk ident author
        (some "[deleted]".toList) ups ts (RField.forest children)))) sub2 =
        extractForest children sub2
    ∧ extractNode (RNode.mk "more".toList (some (RData.mk ident author
        (some "hello".toList) ups ts RField.malformed))) sub2 = [] := by
  refine ⟨?_, ?_, ?_, ?_⟩
  · have hb := extract_body_sanitized (sizeOf forest) forest sub c le_rfl hc
    simpa [bodyIncluded] using hb
  · simp only [extractNode]
    rw [if_neg (fun h => absurd h.2 (by decide))]
    simp [extractReplies]
  · simp only [extractNode]
    rw [if_neg (fun h => absurd h.2 (by decide))]
    simp [extractReplies]
  · simp only [extractNode]
    rw [if_neg (fun h => absurd h.1 (by decide))]
    simp [extractReplies]

/-- C9 witness: the comment extracted from the moderation-bot node has a
non-sentinel body, and the traversal identities hold at a concrete node. -/
theorem extractComments_sanitizes_bodies_and_recurses_witness :
    (¬ ((extractComments [botNode] "programming".toList).headD
        (sampleComment [] 0)).body.isEmpty
      ∧ ((extractComments [botNode] "programming".toList).headD
          (sampleComment [] 0)).body ≠ "[deleted]".toList
      ∧ ((extractComments [botNode] "programming".toList).headD
          (sampleComment [] 0)).body ≠ "[removed]".toList)
    ∧ extractNode (RNode.mk "t1".toList (some (RData.mk "c9".toList none none none 0
        (RField.forest [deletedAuthorNode])))) "science".toList =
        extractForest [deletedAuthorNode] "science".toList
    ∧ extractNode (RNode.mk "t1".toList (some (RData.mk "c9".toList none
        (some "[deleted]".toList) none 0 (RField.forest [deletedAuthorNode]))))
        "science".toList = extractForest [deletedAuthorNode] "science".toList
    ∧ extractNode (RNode.mk "more".toList (some (RData.mk "c9".toList none
        (some "hello".toList) none 0 RField.malformed))) "science".toList = [] :=
  extractComments_sanitizes_bodies_and_recurses [botNode] "programming".toList
    ((extractComments [botNode] "programming".toList).headD (sampleComment [] 0))
    "t1".toList "c9".toList none none 0 [deletedAuthorNode] "science".toList
    (by decide)

/-- C10: for every input the returned promise settles with a list and never
rejects.  A non-string query throws inside the `try` block (already at the
`query.toLowerCase()` of the cache lookup, before the explicit
`'Query must be a string'` check of lines 200–202 is reached) and the
`catch` handler converts it into the mock fallback truncated to the raw
limit; for every string query the body completes without error and the call
returns its value. -/
theorem searchComments_never_rejects
    (cache : CacheMap) (now : Int) (ft : List Char) (limit : Int) (page : Int)
    (collected : List RedditComment) (q : List Char) :
    searchCommentsBody cache now JSQuery.nonString ft limit page collected =
      Except.error "TypeError: query.toLowerCase is not a function".toList
    ∧ searchComments cache now JSQuery.nonString ft limit page collected =
        mockCatchResult limit
    ∧ ∃ r, searchCommentsBody cache now (JSQuery.str q) ft limit page collected =
          Except.ok r
        ∧ searchComments cache now (JSQuery.str q) ft limit page collected = r := by
  refine ⟨rfl, rfl, ?_⟩
  cases hg : getFromCache cache now q ft page with
  | some v =>
    refine ⟨jsSliceTo v limit, ?_, ?_⟩
    · unfold searchCommentsBody
      simp only [hg]
    · unfold searchComments searchCommentsBody
      simp only [hg]
  | none =>
    refine ⟨processResultsValue collected (parseSearchTerms q) ft q
      (max 1 (min limit 100)), ?_, ?_⟩
    · unfold searchCommentsBody
      simp only [hg]
    · unfold searchComments searchCommentsBody
      simp only [hg]

/-- C7 witness: at the concrete single-character query the kept-iff-nonempty
characterization holds. -/
theorem parseSearchTerms_keeps_iff_witness :
    "a".toList ∈ parseSearchTerms "a".toList ↔
      ("a".toList ∈ splitOnWsAux (trimChars (lowerChars "a".toList)) []
        ∧ 1 ≤ ("a".toList).length) :=
  parseSearchTerms_keeps_iff "a".toList "a".toList

/-- C4 witness: the decomposition at the concrete delayed-source scenario. -/
theorem resolve_time_decomposition_witness :
    searchResolveTime [15000] 0 = collectionDuration [15000] + 0
    ∧ searchResolveTime [15000] 0 - collectionDuration [15000] ≤ safetyBound 0 :=
  resolve_time_decomposition [15000] 0

/-- C6 witness: the two shapes at a concrete upvote count. -/
theorem upvote_contribution_shapes_witness :
    apiUpvoteTerm ((5 : ℕ) + 1) - apiUpvoteTerm (5 : ℕ) = 1
    ∧ logUpvoteTerm (5 + 2) - logUpvoteTerm (5 + 1) <
        logUpvoteTerm (5 + 1) - logUpvoteTerm 5 :=
  upvote_contribution_shapes 5

/-- C10 witness: the conversion and resolution facts at concrete inputs. -/
theorem searchComments_never_rejects_witness :
    searchCommentsBody [] 0 JSQuery.nonString "all".toList 20 1 [] =
      Except.error "TypeError: query.toLowerCase is not a function".toList
    ∧ searchComments [] 0 JSQuery.nonString "all".toList 20 1 [] =
        mockCatchResult 20
    ∧ ∃ r, searchCommentsBody [] 0 (JSQuery.str "rust".toList) "all".toList 20 1 [] =
          Except.ok r
        ∧ searchComments [] 0 (JSQuery.str "rust".toList) "all".toList 20 1 [] = r :=
  searchComments_never_rejects [] 0 "all".toList 20 1 [] "rust".toList
